import Mathlib

/-!
Traces v1 handler: the gRPC stream director of `api/traces/v1/api.go`

Shallow embedding of `NewHandler` and of the `director` closure it returns.

* The closure variable `conn` (a nilable `*grpc.ClientConn`) is the field
  `Director.conn`; a call of the closure maps a `Director` to the next one.
* Go values with reference semantics (`metadata.MD` is a `map[string][]string`)
  live in an explicit `Heap`, so that aliasing between the inbound metadata
  and the outbound copy can be stated.
* The package google.golang.org/grpc/metadata is not under `src/` and its
  version is not known: how `metadata.FromIncomingContext` reads the attached
  map (handing it back, or handing back a copy with lower-cased keys) is the
  parameter `Env.reader`, and every theorem holds for each behaviour.
* Effects (the `fmt.Printf`, the logger calls, `grpc.DialContext`) are
  recorded as a list of `Event`s per call. The answer of the network to a
  dial is an input of the call (`Env.dial`).
-/

namespace TracesV1

/-! ## Library data the handler manipulates -/

/-- The constant `traceRoute` (api.go, lines 16-18). -/
def traceRoute : String :=
  "/opentelemetry.proto.collector.trace.v1.TraceService/Export"

/-- Status codes of `google.golang.org/grpc/codes`. -/
inductive Codes where
  | OK | Canceled | Unknown | InvalidArgument | DeadlineExceeded | NotFound
  | AlreadyExists | PermissionDenied | ResourceExhausted | FailedPrecondition
  | Aborted | OutOfRange | Unimplemented | Internal | Unavailable | DataLoss
  | Unauthenticated
  deriving DecidableEq, Repr

/-- Rendering of a code, `codes.Code.String`. -/
def Codes.String : Codes → String
  | .OK => "OK"
  | .Canceled => "Canceled"
  | .Unknown => "Unknown"
  | .InvalidArgument => "InvalidArgument"
  | .DeadlineExceeded => "DeadlineExceeded"
  | .NotFound => "NotFound"
  | .AlreadyExists => "AlreadyExists"
  | .PermissionDenied => "PermissionDenied"
  | .ResourceExhausted => "ResourceExhausted"
  | .FailedPrecondition => "FailedPrecondition"
  | .Aborted => "Aborted"
  | .OutOfRange => "OutOfRange"
  | .Unimplemented => "Unimplemented"
  | .Internal => "Internal"
  | .Unavailable => "Unavailable"
  | .DataLoss => "DataLoss"
  | .Unauthenticated => "Unauthenticated"

/-- A non-nil Go `error`: either a gRPC status error (built by `status.Error`
or `status.Errorf`) or any other error value. A nil `error` is `none` of
`Option GoError`. -/
inductive GoError where
  | status (code : Codes) (msg : String)
  | other (msg : String)
  deriving DecidableEq, Repr

/-- The code of an error, `status.Code(err)`: `Unknown` for a non-status error. -/
def GoError.code : GoError → Codes
  | .status c _ => c
  | .other _ => Codes.Unknown

/-- The status message (description) of an error, `status.Convert(err).Message()`. -/
def GoError.message : GoError → String
  | .status _ m => m
  | .other m => m

/-- The text of `err.Error()`: a status error renders as
`rpc error: code = <code> desc = <message>`. -/
def GoError.Error : GoError → String
  | .status c m => "rpc error: code = " ++ c.String ++ " desc = " ++ m
  | .other m => m

/-- The call `status.Error(c, msg)` as used by the director (`c` is not `OK`). -/
def statusError (c : Codes) (msg : String) : GoError := GoError.status c msg

/-- The call `status.Errorf(c, format)` with no arguments after the format, as on
line 86: the format holds no verb, so the message is the format itself. -/
def statusErrorf (c : Codes) (format : String) : GoError := GoError.status c format

/-- Text `m` occurs inside text `msg` (as a contiguous run of characters). -/
def mentions (msg m : String) : Prop := m.data <:+: msg.data

instance (msg m : String) : Decidable (mentions msg m) := by
  unfold mentions; infer_instance

/-- A `log.Logger`: the no-op logger of `log.NewNopLogger()` or a caller's sink. -/
inductive Logger where
  | nop
  | custom (id : Nat)
  deriving DecidableEq, Repr

/-- The struct `handlerConfiguration` (lines 20-22). -/
structure handlerConfiguration where
  logger : Logger
  deriving DecidableEq, Repr

/-- The type `HandlerOption` (line 25): a modification of the configuration. -/
abbrev HandlerOption := handlerConfiguration → handlerConfiguration

/-- The option `WithLogger` (lines 28-32). -/
def WithLogger (logger : Logger) : HandlerOption :=
  fun h => { h with logger := logger }

/-- A `*grpc.ClientConn` that is not nil, named by the identity of the
connection object; the nilable pointer is `Option ClientConn`. -/
abbrev ClientConn := Nat

/-- The pair `(conn, err)` that `grpc.DialContext` hands back. -/
structure DialResult where
  conn : Option ClientConn
  err : Option GoError
  deriving DecidableEq, Repr

/-- A dial answers as the gRPC library documents: a handle and no error, or no
handle and an error. -/
def DialResult.wellFormed (r : DialResult) : Prop :=
  (r.conn ≠ none ∧ r.err = none) ∨ (r.conn = none ∧ r.err ≠ none)

instance (r : DialResult) : Decidable r.wellFormed := by
  unfold DialResult.wellFormed; infer_instance

/-! ## Store of metadata maps -/

/-- The store of Go reference values: backing arrays of `[]string` values, and
`metadata.MD` map objects (`map[string][]string`), each entry binding a key to
the address of the backing array of its value. Addresses are positions. -/
structure Heap where
  arrays : List (List String)
  maps : List (List (String × Nat))
  deriving DecidableEq, Repr

/-- The value lists of the entries of a map, read through the store; `none` when
an entry points outside the store. -/
def readEntries (arrays : List (List String)) :
    List (String × Nat) → Option (List (String × List String))
  | [] => some []
  | (k, s) :: es =>
    match arrays[s]?, readEntries arrays es with
    | some v, some rest => some ((k, v) :: rest)
    | _, _ => none

/-- The content of the metadata map at address `a`: its keys with their value
lists, in order; `none` when `a` is not a map of the store. -/
def Heap.readMD (h : Heap) (a : Nat) : Option (List (String × List String)) :=
  match h.maps[a]? with
  | some es => readEntries h.arrays es
  | none => none

/-- Modelled from the spec: the loop of `metadata.MD.Copy` (package
google.golang.org/grpc/metadata, not part of this repository), which gives every
key of the copy a newly allocated value slice holding the same strings. -/
def copyEntries (arrays : List (List String)) :
    List (String × Nat) → List (List String) × List (String × Nat)
  | [] => (arrays, [])
  | (k, s) :: es =>
    let r := copyEntries (arrays ++ [(arrays[s]?).getD []]) es
    (r.1, (k, arrays.length) :: r.2)

/-- Modelled from the spec: `md.Copy()` of package google.golang.org/grpc/metadata
(not part of this repository): "a copy of the inbound metadata", a newly
allocated map object whose value slices are newly allocated too. Returns the
store after the allocation and the address of the copy. -/
def Heap.Copy (h : Heap) (md : Nat) : Heap × Nat :=
  let r := copyEntries h.arrays ((h.maps[md]?).getD [])
  ({ arrays := r.1, maps := h.maps ++ [r.2] }, h.maps.length)

/-- Binding of key `k` in the entries of a map. -/
def lookupKey (k : String) : List (String × Nat) → Option Nat
  | [] => none
  | (k', s) :: es => if k' = k then some s else lookupKey k es

/-- Assignment `m[k] = s` on the entries of a map. -/
def bindKey (k : String) (s : Nat) : List (String × Nat) → List (String × Nat)
  | [] => [(k, s)]
  | (k', s') :: es => if k' = k then (k, s) :: es else (k', s') :: bindKey k s es

/-- The byte-wise case mapping of an ASCII letter, other characters unchanged. -/
def lowerChar (c : Char) : Char :=
  if 65 ≤ c.toNat ∧ c.toNat ≤ 90 then Char.ofNat (c.toNat + 32) else c

/-- The function `strings.ToLower` on ASCII text (the Go function also maps
letters outside ASCII, which this one leaves alone). -/
def asciiToLower (s : String) : String := String.mk (s.data.map lowerChar)

/-- The loop `for k, v := range md { out[lower(k)] = v }` of
`metadata.FromIncomingContext`, the entries taken in the order of the list; when
two keys have the same lower-case form, the later entry overwrites the earlier. -/
def lowerEntries (lower : String → String) (es : List (String × Nat)) :
    List (String × Nat) :=
  es.foldl (fun out e => bindKey (lower e.1) e.2 out) []

/-- How the linked version of package google.golang.org/grpc/metadata (which is
not under `src/`) reads the metadata attached to a context in
`metadata.FromIncomingContext`: older versions hand back the attached map
itself; versions from 1.40 on hand back a new map whose keys are the lower-case
forms `lower k` of the attached keys, its values being the slices of the
attached map (`copyValues = false`) or new copies of them (`copyValues = true`). -/
inductive MDReader where
  | attached
  | lowered (lower : String → String) (copyValues : Bool)

/-- The map that `metadata.FromIncomingContext` hands back for the attached map at
address `a`, with the store after its allocations. -/
def MDReader.read (r : MDReader) (h : Heap) (a : Nat) : Heap × Nat :=
  match r with
  | .attached => (h, a)
  | .lowered lower copyValues =>
    let es := lowerEntries lower ((h.maps[a]?).getD [])
    if copyValues then
      let c := copyEntries h.arrays es
      ({ arrays := c.1, maps := h.maps ++ [c.2] }, h.maps.length)
    else
      ({ h with maps := h.maps ++ [es] }, h.maps.length)

/-- The reader hands back key `k` as it is: always for a reader that hands back
the attached map, and when `k` is its own lower-case form otherwise. -/
def MDReader.keeps (r : MDReader) (k : String) : Prop :=
  match r with
  | .attached => True
  | .lowered lower _ => lower k = k

instance (r : MDReader) (k : String) : Decidable (r.keeps k) := by
  cases r <;> unfold MDReader.keeps <;> infer_instance

/-- A modification made through a reference to a metadata map. -/
inductive MDOp where
  /-- The call `md.Set(k, vals...)`, that is `md[k] = vals`. -/
  | set (k : String) (vals : List String)
  /-- The call `md.Append(k, vals...)`, that is `md[k] = append(md[k], vals...)`. -/
  | append (k : String) (vals : List String)
  /-- The call `md.Delete(k)`. -/
  | delete (k : String)
  /-- The assignment `md[k][i] = v`, a write into the backing array of a value. -/
  | store (k : String) (i : Nat) (v : String)
  deriving DecidableEq, Repr

/-- Effect of one modification made through the map reference `md`. An append
writes into the backing array the key already has (the case in which an alias
of that array would see the change); a store to a missing key or position
changes nothing. -/
def Heap.applyOp (h : Heap) (md : Nat) (op : MDOp) : Heap :=
  let es := (h.maps[md]?).getD []
  match op with
  | .set k vals =>
    { arrays := h.arrays ++ [vals], maps := h.maps.set md (bindKey k h.arrays.length es) }
  | .append k vals =>
    match lookupKey k es with
    | some s => { h with arrays := h.arrays.set s ((h.arrays[s]?).getD [] ++ vals) }
    | none =>
      { arrays := h.arrays ++ [vals], maps := h.maps.set md (bindKey k h.arrays.length es) }
  | .delete k => { h with maps := h.maps.set md (es.filter (fun e => e.1 ≠ k)) }
  | .store k i v =>
    match lookupKey k es with
    | some s => { h with arrays := h.arrays.set s (((h.arrays[s]?).getD []).set i v) }
    | none => h

/-- Effect of a sequence of modifications made through the map reference `md`. -/
def Heap.applyOps (h : Heap) (md : Nat) (ops : List MDOp) : Heap :=
  ops.foldl (fun h op => h.applyOp md op) h

/-! ## Contexts -/

/-- A `context.Context` as far as the director reads and writes it: the value
under the incoming-metadata key, the value under the outgoing-metadata key (each
a reference to a map of the store, when present), and the number of cancellation
scopes wrapped around it. -/
structure Context where
  incoming : Option Nat
  outgoing : Option Nat
  cancelScopes : Nat
  deriving DecidableEq, Repr

/-- The pair `(md, ok)` of `metadata.FromIncomingContext(ctx)`: `none` for
`ok = false`, when no map is attached under the incoming-metadata key; otherwise
the map the reader `r` hands back for the attached one, with the store after the
reader's allocations. -/
def FromIncomingContext (r : MDReader) (h : Heap) (ctx : Context) : Option (Heap × Nat) :=
  ctx.incoming.map (r.read h)

/-- The derived context of `context.WithCancel(ctx)`; the cancel function, which
line 55 drops, is not represented. -/
def WithCancel (ctx : Context) : Context :=
  { ctx with cancelScopes := ctx.cancelScopes + 1 }

/-- The context of `metadata.NewOutgoingContext(ctx, md)`. -/
def NewOutgoingContext (ctx : Context) (md : Nat) : Context :=
  { ctx with outgoing := some md }

/-! ## Effects -/

/-- Severity of a logger call, `level.Info` or `level.Warn`. -/
inductive Level where
  | info | warn
  deriving DecidableEq, Repr

/-- Dial options passed on lines 70-72. -/
inductive DialOption where
  | WithCodec | WithInsecure | WithBlock
  deriving DecidableEq, Repr

/-- An effect of a director call. -/
inductive Event where
  | print (text : String)
  | log (sink : Logger) (lvl : Level) (keyvals : List (String × String))
  | dial (ctx : Context) (target : String) (opts : List DialOption)
  deriving DecidableEq, Repr

/-- Whether an event is a call of `grpc.DialContext`. -/
def Event.isDial : Event → Bool
  | .dial _ _ _ => true
  | _ => false

/-- Number of dials among the events. -/
def dialCount (evs : List Event) : Nat := evs.countP Event.isDial

/-! ## The handler -/

/-- What the closure `director` captures: the target `write`, the configuration
`c`, and the variable `conn` of line 44. -/
structure Director where
  write : String
  c : handlerConfiguration
  conn : Option ClientConn
  deriving DecidableEq, Repr

/-- The function `NewHandler` (lines 35-90): applies the options to the default
configuration and returns the closure, whose `conn` is the zero value nil. -/
def NewHandler (write : String) (opts : List HandlerOption) : Director :=
  { write := write
    c := opts.foldl (fun c o => o c) { logger := Logger.nop }
    conn := none }

/-- What a call of the director meets outside the closure: the store, the
answer `grpc.DialContext` gives if this call dials, and the behaviour of the
linked metadata package. -/
structure Env where
  heap : Heap
  dial : DialResult
  reader : MDReader

/-- Result of a call of the director: the three returned values, the closure
after the call, the store after the call, and the effects of the call in order. -/
structure Outcome where
  ctx : Context
  conn : Option ClientConn
  err : Option GoError
  next : Director
  heap : Heap
  events : List Event
  deriving DecidableEq, Repr

/-- The closure `director` (lines 46-87). -/
def director (d : Director) (env : Env) (ctx : Context) (fullMethodName : String) :
    Outcome :=
  let reached := Event.print "@@@ ecs REACHED NewHandler/director\n"
  match FromIncomingContext env.reader env.heap ctx with
  | none =>
    { ctx := ctx, conn := none
      err := some (statusError Codes.Internal "metadata failure")
      next := d, heap := env.heap, events := [reached] }
  | some (heap1, md) =>
    let outCtx := WithCancel ctx
    let cp := heap1.Copy md
    let outCtx := NewOutgoingContext outCtx cp.2
    if fullMethodName = traceRoute then
      match d.conn with
      | none =>
        let r := env.dial
        let dialing := Event.log d.c.logger Level.info [("msg", "gRPC dialing OTel collector")]
        let dialled := Event.dial ctx d.write
          [DialOption.WithCodec, DialOption.WithInsecure, DialOption.WithBlock]
        let told :=
          if r.err = none then
            Event.log d.c.logger Level.info [("msg", "gRPC connected to OTel collector")]
          else
            Event.log d.c.logger Level.warn [("msg", "gRPC did not connect to OTel collector")]
        { ctx := outCtx, conn := r.conn, err := r.err
          next := { d with conn := r.conn }, heap := cp.1
          events := [reached, dialing, dialled, told] }
      | some cn =>
        { ctx := outCtx, conn := some cn, err := none
          next := d, heap := cp.1, events := [reached] }
    else
      { ctx := outCtx, conn := none
        err := some (statusErrorf Codes.Unimplemented "Unknown method")
        next := d, heap := cp.1
        events := [reached, Event.log d.c.logger Level.info
          [("msg", "gRPC reverse proxy director caught unknown method"),
           ("methodName", fullMethodName)]] }

/-- One inbound call: its context, its method name, and the answer the network
gives if the call dials. -/
structure Call where
  ctx : Context
  fullMethodName : String
  dial : DialResult
  deriving DecidableEq, Repr

/-- The outcomes of sequential calls of one director, in order; each call runs
on the closure and the store the previous call left. -/
def runCalls (r : MDReader) (d : Director) (h : Heap) : List Call → List Outcome
  | [] => []
  | c :: cs =>
    let o := director d { heap := h, dial := c.dial, reader := r } c.ctx c.fullMethodName
    o :: runCalls r o.next o.heap cs

/-- The closure and the store after sequential calls of one director. -/
def stateAfter (r : MDReader) (d : Director) (h : Heap) : List Call → Director × Heap
  | [] => (d, h)
  | c :: cs =>
    let o := director d { heap := h, dial := c.dial, reader := r } c.ctx c.fullMethodName
    stateAfter r o.next o.heap cs

/-- All effects of sequential calls of one director, in order. -/
def allEvents (outs : List Outcome) : List Event := (outs.map Outcome.events).flatten

/-! ## Separation of stores -/

/-- Store `h` differs from store `h0` only in cells allocated after `h0`, and the
map at address `o` is one of those and points only to such cells. -/
structure Separate (h0 : Heap) (o : Nat) (h : Heap) : Prop where
  arrays_old : ∀ i, i < h0.arrays.length → h.arrays[i]? = h0.arrays[i]?
  maps_old : ∀ j, j < h0.maps.length → h.maps[j]? = h0.maps[j]?
  arrays_le : h0.arrays.length ≤ h.arrays.length
  out_new : h0.maps.length ≤ o
  out_fresh : ∀ e ∈ (h.maps[o]?).getD [], h0.arrays.length ≤ e.2

/-- Store `h1` holds every cell of store `h0` unchanged, and maybe more cells. -/
structure Grown (h0 h1 : Heap) : Prop where
  arrays_old : ∀ i, i < h0.arrays.length → h1.arrays[i]? = h0.arrays[i]?
  maps_old : ∀ j, j < h0.maps.length → h1.maps[j]? = h0.maps[j]?
  arrays_le : h0.arrays.length ≤ h1.arrays.length
  maps_le : h0.maps.length ≤ h1.maps.length

/-! ## Sample inputs -/

/-- The metadata package of grpc 1.40 and later: keys lower-cased, values copied. -/
def sampleReader : MDReader := MDReader.lowered asciiToLower true

/-- A store holding a metadata set whose key has an upper-case letter:
Authority = localhost. -/
def mixedCaseHeap : Heap :=
  { arrays := [["localhost"]], maps := [[("Authority", 0)]] }

/-- A store holding the metadata set of one call: authority = localhost. -/
def sampleHeap : Heap :=
  { arrays := [["localhost"]], maps := [[("authority", 0)]] }

/-- A context carrying the metadata map at address 0 as incoming metadata. -/
def sampleCtx : Context := { incoming := some 0, outgoing := none, cancelScopes := 0 }

/-- A context with no incoming metadata attached. -/
def bareCtx : Context := { incoming := none, outgoing := none, cancelScopes := 0 }

/-- A director whose slot already holds the connection 7. -/
def connectedDirector : Director :=
  { write := "localhost:4317", c := { logger := Logger.nop }, conn := some 7 }

/-- A dial that succeeds with the connection 5. -/
def dialOk : DialResult := { conn := some 5, err := none }

/-- A dial that fails: no handle, and an Unavailable status. -/
def dialDown : DialResult :=
  { conn := none, err := some (GoError.status Codes.Unavailable "connection refused") }

/-- A call with metadata for the known route, answered by `r` if it dials. -/
def routeCall (r : DialResult) : Call :=
  { ctx := sampleCtx, fullMethodName := traceRoute, dial := r }

/-- A call with metadata for a method the handler does not know. -/
def strayCall : Call :=
  { ctx := sampleCtx, fullMethodName := "/foo.Bar/Baz", dial := dialOk }

/-- A call for the known route without metadata. -/
def bareCall : Call :=
  { ctx := bareCtx, fullMethodName := traceRoute, dial := dialOk }

/-! # Theorems -/

/-! ## Single calls -/

/-- Whether `metadata.FromIncomingContext` answers `ok` depends only on whether a
map is attached to the context, for every version of the package. -/
theorem FromIncomingContext_eq_none (r : MDReader) (h : Heap) (ctx : Context) :
    FromIncomingContext r h ctx = none ↔ ctx.incoming = none := by
  simp [FromIncomingContext]

/-- The director always returns; without incoming metadata it answers with the
inbound context, nil and the Internal status, and changes nothing. -/
theorem director_no_metadata (d : Director) (env : Env) (ctx : Context) (m : String)
    (h : ctx.incoming = none) :
    director d env ctx m =
      { ctx := ctx, conn := none
        err := some (GoError.status Codes.Internal "metadata failure")
        next := d, heap := env.heap
        events := [Event.print "@@@ ecs REACHED NewHandler/director\n"] } := by
  simp [director, FromIncomingContext, h, statusError]

/-- With metadata and a method other than the route, the director answers nil
and the Unimplemented status, and leaves the closure as it was. -/
theorem director_unknown (d : Director) (env : Env) (ctx : Context) (m : String) (a : Nat)
    (h : ctx.incoming = some a) (hm : m ≠ traceRoute) :
    (director d env ctx m).conn = none ∧
    (director d env ctx m).err = some (GoError.status Codes.Unimplemented "Unknown method") ∧
    (director d env ctx m).next = d ∧
    (director d env ctx m).events =
      [Event.print "@@@ ecs REACHED NewHandler/director\n",
       Event.log d.c.logger Level.info
        [("msg", "gRPC reverse proxy director caught unknown method"), ("methodName", m)]] := by
  simp [director, FromIncomingContext, h, hm, statusErrorf]

/-- With metadata, the route and a populated slot, the director answers the
handle of the slot and no error, without any dial. -/
theorem director_reuse (d : Director) (env : Env) (ctx : Context) (a : Nat) (cn : ClientConn)
    (h : ctx.incoming = some a) (hc : d.conn = some cn) :
    (director d env ctx traceRoute).conn = some cn ∧
    (director d env ctx traceRoute).err = none ∧
    (director d env ctx traceRoute).next = d ∧
    (director d env ctx traceRoute).events =
      [Event.print "@@@ ecs REACHED NewHandler/director\n"] := by
  simp [director, FromIncomingContext, h, hc]

/-- With metadata, the route and an empty slot, the director dials once, answers
what the dial answered and stores the dialled handle in the slot. -/
theorem director_dial (d : Director) (env : Env) (ctx : Context) (a : Nat)
    (h : ctx.incoming = some a) (hc : d.conn = none) :
    (director d env ctx traceRoute).conn = env.dial.conn ∧
    (director d env ctx traceRoute).err = env.dial.err ∧
    (director d env ctx traceRoute).next = { d with conn := env.dial.conn } ∧
    dialCount (director d env ctx traceRoute).events = 1 := by
  cases hr : env.dial.err <;>
    simp [director, FromIncomingContext, h, hc, hr, dialCount, Event.isDial, List.countP_cons]

/-! ## Sequences of calls -/

/-- A call that finds the slot populated leaves the closure as it was. -/
theorem director_next_of_connected (d : Director) (env : Env) (ctx : Context) (m : String)
    (cn : ClientConn) (hc : d.conn = some cn) : (director d env ctx m).next = d := by
  cases hmd : ctx.incoming with
  | none => rw [director_no_metadata d env ctx m hmd]
  | some md =>
    by_cases hm : m = traceRoute
    · subst hm
      exact (director_reuse d env ctx md cn hmd hc).2.2.1
    · exact (director_unknown d env ctx m md hmd hm).2.2.1

/-- A call without metadata, or for another method than the route, leaves the
closure as it was. -/
theorem director_next_of_unmatched (d : Director) (env : Env) (ctx : Context) (m : String)
    (hun : ctx.incoming = none ∨ m ≠ traceRoute) :
    (director d env ctx m).next = d := by
  cases hmd : ctx.incoming with
  | none => rw [director_no_metadata d env ctx m hmd]
  | some md =>
    rcases hun with h | h
    · rw [hmd] at h; cases h
    · exact (director_unknown d env ctx m md hmd h).2.2.1

/-- Running two sequences one after the other is running their concatenation. -/
theorem stateAfter_append (r : MDReader) (d : Director) (h : Heap) (xs ys : List Call) :
    stateAfter r d h (xs ++ ys) =
      stateAfter r (stateAfter r d h xs).1 (stateAfter r d h xs).2 ys := by
  induction xs generalizing d h with
  | nil => rfl
  | cons c cs ih => simp only [List.cons_append, stateAfter]; exact ih _ _

/-- Once the slot is populated, no sequence of calls changes the closure. -/
theorem stateAfter_of_connected (r : MDReader) (d : Director) (h : Heap) (calls : List Call)
    (cn : ClientConn) (hc : d.conn = some cn) : (stateAfter r d h calls).1 = d := by
  induction calls generalizing h with
  | nil => rfl
  | cons c cs ih =>
    simp only [stateAfter]
    rw [director_next_of_connected d _ c.ctx c.fullMethodName cn hc]
    exact ih _

/-- Calls that carry no metadata or name another method leave the closure as it
was. -/
theorem stateAfter_of_unmatched (r : MDReader) (d : Director) (h : Heap) (calls : List Call)
    (hun : ∀ c ∈ calls, c.ctx.incoming = none ∨ c.fullMethodName ≠ traceRoute) :
    (stateAfter r d h calls).1 = d := by
  induction calls generalizing h with
  | nil => rfl
  | cons c cs ih =>
    simp only [stateAfter]
    rw [director_next_of_unmatched d _ c.ctx c.fullMethodName (hun c (List.mem_cons_self _ _))]
    exact ih _ (fun c' hc' => hun c' (List.mem_cons_of_mem _ hc'))

/-- On a populated slot, matching calls all get the handle of the slot and no
error, and none of them dials. -/
theorem runCalls_of_connected (r : MDReader) (d : Director) (h : Heap) (calls : List Call) (cn : ClientConn)
    (hc : d.conn = some cn)
    (hall : ∀ c ∈ calls, c.ctx.incoming ≠ none ∧ c.fullMethodName = traceRoute) :
    dialCount (allEvents (runCalls r d h calls)) = 0 ∧
    ∀ o ∈ runCalls r d h calls, o.conn = some cn ∧ o.err = none := by
  induction calls generalizing h with
  | nil => exact ⟨rfl, fun o ho => by cases ho⟩
  | cons c cs ih =>
    obtain ⟨hmd, hm⟩ := hall c (List.mem_cons_self _ _)
    obtain ⟨md, hmd⟩ := Option.ne_none_iff_exists'.mp hmd
    have hstep := director_reuse d { heap := h, dial := c.dial, reader := r } c.ctx md cn hmd hc
    rw [← hm] at hstep
    obtain ⟨h1, h2, h3, h4⟩ := hstep
    have ih' := ih (director d { heap := h, dial := c.dial, reader := r } c.ctx c.fullMethodName).heap
      (fun c' hc' => hall c' (List.mem_cons_of_mem _ hc'))
    simp only [runCalls, h3]
    constructor
    · have := ih'.1
      simp only [allEvents, dialCount, List.map_cons, List.flatten_cons, List.countP_append] at this ⊢
      rw [this, h4]
      rfl
    · intro o ho
      rcases List.mem_cons.mp ho with rfl | ho
      · exact ⟨h1, h2⟩
      · exact ih'.2 o ho

/-- Every call gets an outcome. -/
theorem runCalls_length (r : MDReader) (d : Director) (h : Heap) (calls : List Call) :
    (runCalls r d h calls).length = calls.length := by
  induction calls generalizing d h with
  | nil => rfl
  | cons c cs ih => simp [runCalls, ih]

/-! ## The store: copies are separate from their originals -/

/-- Reading the entries of a map depends only on the arrays they point to. -/
theorem readEntries_congr (arrs arrs2 : List (List String)) (es : List (String × Nat))
    (hsame : ∀ e ∈ es, arrs2[e.2]? = arrs[e.2]?) :
    readEntries arrs2 es = readEntries arrs es := by
  induction es with
  | nil => rfl
  | cons e es ih =>
    obtain ⟨k, s⟩ := e
    have h1 : arrs2[s]? = arrs[s]? := hsame (k, s) (List.mem_cons_self _ _)
    have h2 := ih (fun e he => hsame e (List.mem_cons_of_mem _ he))
    simp only [readEntries, h1, h2]

/-- Entries that can be read point inside the store. -/
theorem readEntries_bound (arrs : List (List String)) (es : List (String × Nat))
    (md : List (String × List String)) (hread : readEntries arrs es = some md) :
    ∀ e ∈ es, e.2 < arrs.length := by
  induction es generalizing md with
  | nil => intro e he; cases he
  | cons e es ih =>
    obtain ⟨k, s⟩ := e
    simp only [readEntries] at hread
    cases hv : arrs[s]? with
    | none => simp [hv] at hread
    | some v =>
      cases hr : readEntries arrs es with
      | none => simp [hv, hr] at hread
      | some rest =>
        intro e he
        rcases List.mem_cons.mp he with rfl | he
        · have := (List.getElem?_eq_some.mp hv).1
          exact this
        · exact ih rest hr e he

/-- The copy loop only allocates: the arrays already in the store stay in place. -/
theorem copyEntries_extends (arrs : List (List String)) (es : List (String × Nat)) :
    ∃ ext, (copyEntries arrs es).1 = arrs ++ ext := by
  induction es generalizing arrs with
  | nil => exact ⟨[], by simp [copyEntries]⟩
  | cons e es ih =>
    obtain ⟨k, s⟩ := e
    obtain ⟨ext, hext⟩ := ih (arrs ++ [(arrs[s]?).getD []])
    exact ⟨[(arrs[s]?).getD []] ++ ext, by simp [copyEntries, hext]⟩

/-- The arrays already in the store read the same after the copy loop. -/
theorem copyEntries_old (arrs : List (List String)) (es : List (String × Nat)) (i : Nat)
    (hi : i < arrs.length) : (copyEntries arrs es).1[i]? = arrs[i]? := by
  obtain ⟨ext, hext⟩ := copyEntries_extends arrs es
  rw [hext, List.getElem?_append_left hi]

/-- The copy loop never shrinks the store. -/
theorem copyEntries_length (arrs : List (List String)) (es : List (String × Nat)) :
    arrs.length ≤ (copyEntries arrs es).1.length := by
  obtain ⟨ext, hext⟩ := copyEntries_extends arrs es
  rw [hext, List.length_append]
  exact Nat.le_add_right _ _

/-- The value slices of a copy are newly allocated: their addresses lie beyond
the arrays the store held before. -/
theorem copyEntries_fresh (arrs : List (List String)) (es : List (String × Nat)) :
    ∀ e ∈ (copyEntries arrs es).2, arrs.length ≤ e.2 := by
  induction es generalizing arrs with
  | nil => intro e he; simp [copyEntries] at he
  | cons e0 es ih =>
    obtain ⟨k, s⟩ := e0
    intro e he
    simp only [copyEntries] at he
    rcases List.mem_cons.mp he with rfl | he
    · exact Nat.le_refl _
    · have := ih (arrs ++ [(arrs[s]?).getD []]) e he
      simp only [List.length_append, List.length_singleton] at this
      omega

/-- The copy of a readable map reads as the original does. -/
theorem copyEntries_read (arrs : List (List String)) (es : List (String × Nat))
    (md : List (String × List String)) (hread : readEntries arrs es = some md) :
    readEntries (copyEntries arrs es).1 (copyEntries arrs es).2 = some md := by
  induction es generalizing arrs md with
  | nil => simpa [copyEntries, readEntries] using hread
  | cons e es ih =>
    obtain ⟨k, s⟩ := e
    have hb := readEntries_bound arrs _ md hread
    simp only [readEntries] at hread
    cases hv : arrs[s]? with
    | none => simp [hv] at hread
    | some v =>
      cases hr : readEntries arrs es with
      | none => simp [hv, hr] at hread
      | some rest =>
        simp only [hv, hr, Option.some.injEq] at hread
        have hr1 : readEntries (arrs ++ [v]) es = some rest := by
          rw [readEntries_congr arrs (arrs ++ [v]) es, hr]
          intro e he
          exact List.getElem?_append_left (hb e (List.mem_cons_of_mem _ he))
        have hcopy := ih (arrs ++ [v]) rest hr1
        have hnew : (copyEntries (arrs ++ [v]) es).1[arrs.length]? = some v := by
          rw [copyEntries_old (arrs ++ [v]) es arrs.length (by simp)]
          exact List.getElem?_concat_length arrs v
        simp only [copyEntries, hv, Option.getD_some, readEntries, hnew, hcopy]
        rw [← hread]

/-- The copy of a readable metadata map holds the same keys and value lists. -/
theorem Copy_readMD_new (h : Heap) (a : Nat) (md : List (String × List String))
    (hread : h.readMD a = some md) : (h.Copy a).1.readMD (h.Copy a).2 = some md := by
  unfold Heap.readMD at hread
  cases hes : h.maps[a]? with
  | none => simp [hes] at hread
  | some es =>
    simp only [hes] at hread
    simp only [Heap.readMD, Heap.Copy, hes, Option.getD_some, List.getElem?_concat_length]
    exact copyEntries_read h.arrays es md hread

/-- A metadata map of the old store reads the same in a store separate from it. -/
theorem Separate.readMD_old {h0 h : Heap} {o : Nat} (hs : Separate h0 o h) (a : Nat)
    (md : List (String × List String)) (hread : h0.readMD a = some md) :
    h.readMD a = some md := by
  unfold Heap.readMD at hread ⊢
  cases hes : h0.maps[a]? with
  | none => simp [hes] at hread
  | some es =>
    simp only [hes] at hread
    have ha := (List.getElem?_eq_some.mp hes).1
    rw [hs.maps_old a ha, hes]
    simp only
    rw [readEntries_congr h0.arrays h.arrays es, hread]
    intro e he
    exact hs.arrays_old e.2 (readEntries_bound h0.arrays es md hread e he)

/-- The store after `md.Copy()` is separate from the store before, at the copy. -/
theorem Separate.of_Copy (h : Heap) (a : Nat) : Separate h (h.Copy a).2 (h.Copy a).1 where
  arrays_old := fun i hi => copyEntries_old h.arrays _ i hi
  maps_old := fun j hj => List.getElem?_append_left hj
  arrays_le := copyEntries_length h.arrays _
  out_new := Nat.le_refl _
  out_fresh := by
    intro e he
    simp only [Heap.Copy, List.getElem?_concat_length, Option.getD_some] at he
    exact copyEntries_fresh h.arrays _ e he

/-- A key bound in a map is bound to one of the addresses of its entries. -/
theorem lookupKey_mem (k : String) (es : List (String × Nat)) (s : Nat)
    (hl : lookupKey k es = some s) : ∃ e ∈ es, e.2 = s := by
  induction es with
  | nil => simp [lookupKey] at hl
  | cons e es ih =>
    obtain ⟨k2, s2⟩ := e
    simp only [lookupKey] at hl
    split at hl
    · exact ⟨(k2, s2), List.mem_cons_self _ _, by simpa using hl⟩
    · obtain ⟨e, he, hes⟩ := ih hl
      exact ⟨e, List.mem_cons_of_mem _ he, hes⟩

/-- After `m[k] = s` every entry is the new binding or an entry the map had. -/
theorem mem_bindKey (k : String) (s : Nat) (es : List (String × Nat)) (e : String × Nat)
    (he : e ∈ bindKey k s es) : e = (k, s) ∨ e ∈ es := by
  induction es with
  | nil => simp [bindKey] at he; exact Or.inl he
  | cons e0 es ih =>
    obtain ⟨k2, s2⟩ := e0
    simp only [bindKey] at he
    split at he
    · rcases List.mem_cons.mp he with rfl | he
      · exact Or.inl rfl
      · exact Or.inr (List.mem_cons_of_mem _ he)
    · rcases List.mem_cons.mp he with rfl | he
      · exact Or.inr (List.mem_cons_self _ _)
      · rcases ih he with rfl | h
        · exact Or.inl rfl
        · exact Or.inr (List.mem_cons_of_mem _ h)

/-- Replacing the entries of the map at `o` by entries that point to new cells
keeps the store separate. -/
theorem Separate.set_map {h0 h : Heap} {o : Nat} (hs : Separate h0 o h)
    (arrs : List (List String)) (es : List (String × Nat))
    (harr : ∀ i, i < h0.arrays.length → arrs[i]? = h0.arrays[i]?)
    (hle : h0.arrays.length ≤ arrs.length)
    (hes : ∀ e ∈ es, h0.arrays.length ≤ e.2) :
    Separate h0 o { arrays := arrs, maps := h.maps.set o es } where
  arrays_old := harr
  maps_old := by
    intro j hj
    have hne : o ≠ j := by have := hs.out_new; omega
    simp only [List.getElem?_set_ne hne]
    exact hs.maps_old j hj
  arrays_le := hle
  out_new := hs.out_new
  out_fresh := by
    intro e he
    by_cases ho : o < h.maps.length
    · simp only [List.getElem?_set, if_true, if_pos ho, Option.getD_some] at he
      exact hes e he
    · simp only [List.getElem?_set, if_true, if_neg ho, Option.getD_none] at he
      cases he

/-- Writing into an array that was allocated after the old store keeps the store
separate. -/
theorem Separate.set_array {h0 h : Heap} {o : Nat} (hs : Separate h0 o h)
    (s : Nat) (v : List String) (hfresh : h0.arrays.length ≤ s) :
    Separate h0 o { h with arrays := h.arrays.set s v } where
  arrays_old := by
    intro i hi
    have hne : s ≠ i := by omega
    simp only [List.getElem?_set_ne hne]
    exact hs.arrays_old i hi
  maps_old := hs.maps_old
  arrays_le := by simp only [List.length_set]; exact hs.arrays_le
  out_new := hs.out_new
  out_fresh := hs.out_fresh

/-- A modification made through the reference `o` keeps the store separate. -/
theorem Separate.applyOp {h0 h : Heap} {o : Nat} (hs : Separate h0 o h) (op : MDOp) :
    Separate h0 o (h.applyOp o op) := by
  have hext : ∀ vals : List String, ∀ i, i < h0.arrays.length →
      (h.arrays ++ [vals])[i]? = h0.arrays[i]? := by
    intro vals i hi
    rw [List.getElem?_append_left (Nat.lt_of_lt_of_le hi hs.arrays_le)]
    exact hs.arrays_old i hi
  have hlen : ∀ vals : List String, h0.arrays.length ≤ (h.arrays ++ [vals]).length := by
    intro vals
    have := hs.arrays_le
    simp only [List.length_append, List.length_singleton]
    omega
  have hbind : ∀ k : String, ∀ e ∈ bindKey k h.arrays.length ((h.maps[o]?).getD []),
      h0.arrays.length ≤ e.2 := by
    intro k e he
    rcases mem_bindKey k _ _ e he with rfl | he
    · exact hs.arrays_le
    · exact hs.out_fresh e he
  cases op with
  | set k vals =>
    simp only [Heap.applyOp]
    exact hs.set_map _ _ (hext vals) (hlen vals) (hbind k)
  | append k vals =>
    simp only [Heap.applyOp]
    cases hl : lookupKey k ((h.maps[o]?).getD []) with
    | none => exact hs.set_map _ _ (hext vals) (hlen vals) (hbind k)
    | some s =>
      obtain ⟨e, he, hes⟩ := lookupKey_mem k _ s hl
      exact hs.set_array s _ (hes ▸ hs.out_fresh e he)
  | delete k =>
    simp only [Heap.applyOp]
    exact hs.set_map _ _ hs.arrays_old hs.arrays_le
      (fun e he => hs.out_fresh e (List.mem_of_mem_filter he))
  | store k i v =>
    simp only [Heap.applyOp]
    cases hl : lookupKey k ((h.maps[o]?).getD []) with
    | none => exact hs
    | some s =>
      obtain ⟨e, he, hes⟩ := lookupKey_mem k _ s hl
      exact hs.set_array s _ (hes ▸ hs.out_fresh e he)

/-- Any sequence of modifications made through the reference `o` keeps the store
separate. -/
theorem Separate.applyOps {h0 h : Heap} {o : Nat} (hs : Separate h0 o h) (ops : List MDOp) :
    Separate h0 o (h.applyOps o ops) := by
  induction ops generalizing h with
  | nil => exact hs
  | cons op ops ih => exact ih (hs.applyOp op)

/-- A map that can be read has the keys of its entries, in their order. -/
theorem readEntries_keys (arrs : List (List String)) (es : List (String × Nat))
    (md : List (String × List String)) (hread : readEntries arrs es = some md) :
    md.map Prod.fst = es.map Prod.fst := by
  induction es generalizing md with
  | nil =>
    simp only [readEntries, Option.some.injEq] at hread
    rw [← hread]
    rfl
  | cons e es ih =>
    obtain ⟨k, s⟩ := e
    simp only [readEntries] at hread
    cases hv : arrs[s]? with
    | none => simp [hv] at hread
    | some v =>
      cases hr : readEntries arrs es with
      | none => simp [hv, hr] at hread
      | some rest =>
        simp only [hv, hr, Option.some.injEq] at hread
        rw [← hread]
        simp only [List.map_cons, ih rest hr]

/-- Binding a key the map does not hold adds the binding after its entries. -/
theorem bindKey_of_not_mem (k : String) (s : Nat) (es : List (String × Nat))
    (hk : k ∉ es.map Prod.fst) : bindKey k s es = es ++ [(k, s)] := by
  induction es with
  | nil => rfl
  | cons e es ih =>
    obtain ⟨k2, s2⟩ := e
    simp only [List.map_cons, List.mem_cons, not_or] at hk
    have hne : ¬ k2 = k := fun h => hk.1 h.symm
    simp only [bindKey, if_neg hne, ih hk.2, List.cons_append]

/-- The lower-casing loop, run on entries whose keys are distinct and are their own
lower-case forms, appends them one by one. -/
theorem lowerEntries_fold (lower : String → String) (es out : List (String × Nat))
    (hlow : ∀ e ∈ es, lower e.1 = e.1) (hnd : ((out ++ es).map Prod.fst).Nodup) :
    es.foldl (fun out e => bindKey (lower e.1) e.2 out) out = out ++ es := by
  induction es generalizing out with
  | nil => simp
  | cons e es ih =>
    have hk : e.1 ∉ out.map Prod.fst := by
      intro hmem
      simp only [List.map_append, List.map_cons] at hnd
      exact (List.nodup_append.mp hnd).2.2 hmem (List.mem_cons_self _ _)
    have hnd2 : (((out ++ [e]) ++ es).map Prod.fst).Nodup := by
      simpa [List.append_assoc] using hnd
    simp only [List.foldl_cons, hlow e (List.mem_cons_self _ _)]
    rw [bindKey_of_not_mem e.1 e.2 out hk]
    rw [ih (out ++ [e]) (fun e2 he2 => hlow e2 (List.mem_cons_of_mem _ he2)) hnd2]
    simp [List.append_assoc]

/-- Lower-casing leaves a map whose keys are distinct and lower-case as it is. -/
theorem lowerEntries_eq_self (lower : String → String) (es : List (String × Nat))
    (hlow : ∀ e ∈ es, lower e.1 = e.1) (hnd : (es.map Prod.fst).Nodup) :
    lowerEntries lower es = es := by
  unfold lowerEntries
  rw [lowerEntries_fold lower es [] hlow (by simpa using hnd)]
  rfl

/-- Reading the attached metadata only allocates. -/
theorem MDReader.read_grown (r : MDReader) (h : Heap) (a : Nat) : Grown h (r.read h a).1 := by
  cases r with
  | attached =>
    exact ⟨fun _ _ => rfl, fun _ _ => rfl, Nat.le_refl _, Nat.le_refl _⟩
  | lowered lower copyValues =>
    cases copyValues with
    | false =>
      refine ⟨fun _ _ => rfl, fun j hj => ?_, Nat.le_refl _, ?_⟩
      · simp only [MDReader.read, Bool.false_eq_true, if_false]
        exact List.getElem?_append_left hj
      · simp [MDReader.read]
    | true =>
      refine ⟨fun i hi => ?_, fun j hj => ?_, ?_, ?_⟩
      · simp only [MDReader.read, if_true]
        exact copyEntries_old h.arrays _ i hi
      · simp only [MDReader.read, if_true]
        exact List.getElem?_append_left hj
      · simp only [MDReader.read, if_true]
        exact copyEntries_length h.arrays _
      · simp [MDReader.read]

/-- The map handed back for attached metadata whose keys are distinct and kept by
the reader reads as the attached map does. -/
theorem MDReader.read_readMD (r : MDReader) (h : Heap) (a : Nat)
    (md : List (String × List String)) (hread : h.readMD a = some md)
    (hkeep : ∀ kv ∈ md, r.keeps kv.1) (hnd : (md.map Prod.fst).Nodup) :
    (r.read h a).1.readMD (r.read h a).2 = some md := by
  cases r with
  | attached => exact hread
  | lowered lower copyValues =>
    unfold Heap.readMD at hread
    cases hes : h.maps[a]? with
    | none => simp [hes] at hread
    | some es =>
      simp only [hes] at hread
      have hkeys := readEntries_keys h.arrays es md hread
      have hlow : ∀ e ∈ es, lower e.1 = e.1 := by
        intro e he
        have hmem : e.1 ∈ md.map Prod.fst := by
          rw [hkeys]; exact List.mem_map_of_mem Prod.fst he
        obtain ⟨kv, hkv, hk⟩ := List.mem_map.mp hmem
        have := hkeep kv hkv
        simp only [MDReader.keeps] at this
        rw [← hk]; exact this
      have hself := lowerEntries_eq_self lower es hlow (hkeys ▸ hnd)
      cases copyValues with
      | false =>
        simp only [MDReader.read, Heap.readMD, hes, Option.getD_some, hself,
          Bool.false_eq_true, if_false, List.getElem?_concat_length]
        exact hread
      | true =>
        simp only [MDReader.read, Heap.readMD, hes, Option.getD_some, hself, if_true,
          List.getElem?_concat_length]
        exact copyEntries_read h.arrays es md hread

/-- A map that can be read lies inside the store. -/
theorem readMD_lt {h0 : Heap} (a : Nat) (md : List (String × List String))
    (hread : h0.readMD a = some md) : a < h0.maps.length := by
  unfold Heap.readMD at hread
  cases hes : h0.maps[a]? with
  | none => simp [hes] at hread
  | some es => exact (List.getElem?_eq_some.mp hes).1

/-- A store separate from a grown store is separate from the store it grew from. -/
theorem Separate.of_grown {h0 h1 h : Heap} {o : Nat} (hg : Grown h0 h1)
    (hs : Separate h1 o h) : Separate h0 o h where
  arrays_old := fun i hi =>
    (hs.arrays_old i (Nat.lt_of_lt_of_le hi hg.arrays_le)).trans (hg.arrays_old i hi)
  maps_old := fun j hj =>
    (hs.maps_old j (Nat.lt_of_lt_of_le hj hg.maps_le)).trans (hg.maps_old j hj)
  arrays_le := Nat.le_trans hg.arrays_le hs.arrays_le
  out_new := Nat.le_trans hg.maps_le hs.out_new
  out_fresh := fun e he => Nat.le_trans hg.arrays_le (hs.out_fresh e he)

/-- With metadata attached, the director returns the inbound context wrapped in
one more cancellation scope and carrying as outgoing metadata the copy of the map
`metadata.FromIncomingContext` handed back, and the store it leaves is the store
after that copy; this holds on every path. -/
theorem director_ctx_of_metadata (d : Director) (env : Env) (ctx : Context) (m : String)
    (a : Nat) (hmd : ctx.incoming = some a) :
    (director d env ctx m).ctx = NewOutgoingContext (WithCancel ctx)
      ((env.reader.read env.heap a).1.Copy (env.reader.read env.heap a).2).2 ∧
    (director d env ctx m).heap =
      ((env.reader.read env.heap a).1.Copy (env.reader.read env.heap a).2).1 := by
  simp only [director, FromIncomingContext, hmd, Option.map_some']
  split
  · split <;> exact ⟨rfl, rfl⟩
  · exact ⟨rfl, rfl⟩

/-! ## Claims on a single call -/

/-- C1: a call that carries a metadata set and whose method name differs from the
known route gets no connection handle and an error of code Unimplemented,
whatever the metadata holds and whatever the connection slot holds. -/
theorem C1_unknown_method_unimplemented (d : Director) (env : Env) (ctx : Context)
    (fullMethodName : String) (md : Nat)
    (hmd : ctx.incoming = some md) (hm : fullMethodName ≠ traceRoute) :
    (director d env ctx fullMethodName).conn = none ∧
    ∃ e, (director d env ctx fullMethodName).err = some e ∧ e.code = Codes.Unimplemented := by
  obtain ⟨h1, h2, -, -⟩ := director_unknown d env ctx fullMethodName md hmd hm
  exact ⟨h1, _, h2, rfl⟩

/-- C1 at a concrete call: method /foo.Bar/Baz on a populated slot. -/
theorem C1_unknown_method_unimplemented_witness :
    (director connectedDirector { heap := sampleHeap, dial := dialOk, reader := sampleReader } sampleCtx
        "/foo.Bar/Baz").conn = none ∧
    ∃ e, (director connectedDirector { heap := sampleHeap, dial := dialOk, reader := sampleReader } sampleCtx
        "/foo.Bar/Baz").err = some e ∧ e.code = Codes.Unimplemented :=
  C1_unknown_method_unimplemented connectedDirector { heap := sampleHeap, dial := dialOk, reader := sampleReader }
    sampleCtx "/foo.Bar/Baz" 0 rfl (by decide)

/-- C2: a call whose context has no incoming metadata gets an error of code
Internal and no connection handle, for every method name (the known route
included) and every state of the connection slot. -/
theorem C2_missing_metadata_internal (d : Director) (env : Env) (ctx : Context)
    (fullMethodName : String) (hmd : ctx.incoming = none) :
    (director d env ctx fullMethodName).conn = none ∧
    ∃ e, (director d env ctx fullMethodName).err = some e ∧ e.code = Codes.Internal := by
  rw [director_no_metadata d env ctx fullMethodName hmd]
  exact ⟨rfl, _, rfl, rfl⟩

/-- C2 at a concrete call: the known route on a populated slot, without metadata. -/
theorem C2_missing_metadata_internal_witness :
    (director connectedDirector { heap := sampleHeap, dial := dialOk, reader := sampleReader } bareCtx
        traceRoute).conn = none ∧
    ∃ e, (director connectedDirector { heap := sampleHeap, dial := dialOk, reader := sampleReader } bareCtx
        traceRoute).err = some e ∧ e.code = Codes.Internal :=
  C2_missing_metadata_internal connectedDirector { heap := sampleHeap, dial := dialOk, reader := sampleReader }
    bareCtx traceRoute rfl

/-- C3: a call that carries a metadata set and names the known route, made while
the slot is populated or answered by a successful dial, gets a non-nil handle and
a nil error, and the handle returned is the one the slot holds after the call. -/
theorem C3_route_match_returns_slot (d : Director) (env : Env) (ctx : Context) (md : Nat)
    (hmd : ctx.incoming = some md)
    (hok : d.conn ≠ none ∨ (env.dial.conn ≠ none ∧ env.dial.err = none)) :
    (director d env ctx traceRoute).conn ≠ none ∧
    (director d env ctx traceRoute).err = none ∧
    (director d env ctx traceRoute).conn = (director d env ctx traceRoute).next.conn := by
  cases hc : d.conn with
  | some cn =>
    obtain ⟨h1, h2, h3, -⟩ := director_reuse d env ctx md cn hmd hc
    rw [h1, h2, h3, hc]
    simp
  | none =>
    obtain ⟨h1, h2, h3, -⟩ := director_dial d env ctx md hmd hc
    rw [h1, h2, h3]
    rcases hok with hp | ⟨hd1, hd2⟩
    · exact absurd hc hp
    · exact ⟨hd1, hd2, rfl⟩

/-- C3 at a concrete call: an empty slot and a dial that succeeds. -/
theorem C3_route_match_returns_slot_witness :
    (director (NewHandler "localhost:4317" []) { heap := sampleHeap, dial := dialOk, reader := sampleReader }
        sampleCtx traceRoute).conn ≠ none ∧
    (director (NewHandler "localhost:4317" []) { heap := sampleHeap, dial := dialOk, reader := sampleReader }
        sampleCtx traceRoute).err = none ∧
    (director (NewHandler "localhost:4317" []) { heap := sampleHeap, dial := dialOk, reader := sampleReader }
        sampleCtx traceRoute).conn =
      (director (NewHandler "localhost:4317" []) { heap := sampleHeap, dial := dialOk, reader := sampleReader }
        sampleCtx traceRoute).next.conn :=
  C3_route_match_returns_slot (NewHandler "localhost:4317" [])
    { heap := sampleHeap, dial := dialOk, reader := sampleReader } sampleCtx 0 rfl (Or.inr (by decide))

/-- C9: when a dial answers either a handle without error or an error without
handle, every call of the director (any metadata, method name and slot) returns
either a non-nil handle with a nil error or a nil handle with a non-nil error:
exactly one of the two is set. -/
theorem C9_exactly_one_of_conn_err (d : Director) (env : Env) (ctx : Context)
    (fullMethodName : String) (hdial : env.dial.wellFormed) :
    ((director d env ctx fullMethodName).conn ≠ none ∧
        (director d env ctx fullMethodName).err = none) ∨
    ((director d env ctx fullMethodName).conn = none ∧
        (director d env ctx fullMethodName).err ≠ none) := by
  cases hmd : ctx.incoming with
  | none =>
    rw [director_no_metadata d env ctx fullMethodName hmd]
    exact Or.inr ⟨rfl, by simp⟩
  | some md =>
    by_cases hm : fullMethodName = traceRoute
    · subst hm
      cases hc : d.conn with
      | some cn =>
        obtain ⟨h1, h2, -, -⟩ := director_reuse d env ctx md cn hmd hc
        rw [h1, h2]
        exact Or.inl ⟨by simp, rfl⟩
      | none =>
        obtain ⟨h1, h2, -, -⟩ := director_dial d env ctx md hmd hc
        rw [h1, h2]
        exact hdial
    · obtain ⟨h1, h2, -, -⟩ := director_unknown d env ctx fullMethodName md hmd hm
      rw [h1, h2]
      exact Or.inr ⟨rfl, by simp⟩

/-- C9 at a concrete call: an empty slot and a dial that fails. -/
theorem C9_exactly_one_of_conn_err_witness :
    ((director (NewHandler "localhost:4317" []) { heap := sampleHeap, dial := dialDown, reader := sampleReader }
        sampleCtx traceRoute).conn ≠ none ∧
      (director (NewHandler "localhost:4317" []) { heap := sampleHeap, dial := dialDown, reader := sampleReader }
        sampleCtx traceRoute).err = none) ∨
    ((director (NewHandler "localhost:4317" []) { heap := sampleHeap, dial := dialDown, reader := sampleReader }
        sampleCtx traceRoute).conn = none ∧
      (director (NewHandler "localhost:4317" []) { heap := sampleHeap, dial := dialDown, reader := sampleReader }
        sampleCtx traceRoute).err ≠ none) :=
  C9_exactly_one_of_conn_err (NewHandler "localhost:4317" [])
    { heap := sampleHeap, dial := dialDown, reader := sampleReader } sampleCtx traceRoute (by decide)

/-- C10: a call of the director issues a dial exactly when it carries a metadata
set, names the known route and finds the slot empty, and then it issues one; in
every other case it issues none and leaves the closure, its slot included, as it
was. A newly made director has an empty slot, and no dial has been issued before
its first call. -/
theorem C10_dial_iff_first_matching (d : Director) (env : Env) (ctx : Context)
    (fullMethodName write : String) (opts : List HandlerOption) (h : Heap) (r : MDReader) :
    (0 < dialCount (director d env ctx fullMethodName).events ↔
      (ctx.incoming ≠ none ∧ fullMethodName = traceRoute ∧ d.conn = none)) ∧
    dialCount (director d env ctx fullMethodName).events ≤ 1 ∧
    ((ctx.incoming ≠ none ∧ fullMethodName = traceRoute ∧ d.conn = none) ∨
      (dialCount (director d env ctx fullMethodName).events = 0 ∧
        (director d env ctx fullMethodName).next = d)) ∧
    (NewHandler write opts).conn = none ∧
    dialCount (allEvents (runCalls r (NewHandler write opts) h [])) = 0 := by
  refine ⟨?_, ?_, ?_, rfl, rfl⟩ <;>
  · cases hmd : ctx.incoming with
    | none =>
      rw [director_no_metadata d env ctx fullMethodName hmd]
      simp [dialCount, Event.isDial]
    | some md =>
      by_cases hm : fullMethodName = traceRoute
      · subst hm
        cases hc : d.conn with
        | some cn =>
          obtain ⟨-, -, h3, h4⟩ := director_reuse d env ctx md cn hmd hc
          simp [h3, h4, dialCount, Event.isDial]
        | none =>
          obtain ⟨-, -, -, h4⟩ := director_dial d env ctx md hmd hc
          simp [h4]
      · obtain ⟨-, -, h3, h4⟩ := director_unknown d env ctx fullMethodName md hmd hm
        simp [h3, h4, dialCount, Event.isDial, hm]

/-- C7, as stated, fails: for the method name /foo.Bar/Baz the error returned is
the Unimplemented status with message "Unknown method"; neither that message nor
the rendered error text contains foo.Bar/Baz. -/
theorem C7_counterexample :
    sampleCtx.incoming = some 0 ∧ "/foo.Bar/Baz" ≠ traceRoute ∧
    ∃ e, (director connectedDirector { heap := sampleHeap, dial := dialOk, reader := sampleReader } sampleCtx
        "/foo.Bar/Baz").err = some e ∧
      e.code = Codes.Unimplemented ∧
      ¬ mentions e.message "foo.Bar/Baz" ∧ ¬ mentions e.Error "foo.Bar/Baz" ∧
      ¬ mentions e.message "/foo.Bar/Baz" :=
  ⟨rfl, by decide, GoError.status Codes.Unimplemented "Unknown method", by decide, rfl,
    by decide, by decide, by decide⟩

/-- C7, amended: for every unrecognised method name the error returned is the
Unimplemented status whose message is the fixed text "Unknown method", the same
for every method name; the method name itself is carried by the informational
log event of the call, under the key methodName. -/
theorem C7_unknown_method_fixed_message (d : Director) (env : Env) (ctx : Context)
    (fullMethodName : String) (md : Nat)
    (hmd : ctx.incoming = some md) (hm : fullMethodName ≠ traceRoute) :
    ∃ e, (director d env ctx fullMethodName).err = some e ∧
      e.code = Codes.Unimplemented ∧ e.message = "Unknown method" ∧
      Event.log d.c.logger Level.info
        [("msg", "gRPC reverse proxy director caught unknown method"),
         ("methodName", fullMethodName)] ∈ (director d env ctx fullMethodName).events := by
  obtain ⟨-, h2, -, h4⟩ := director_unknown d env ctx fullMethodName md hmd hm
  refine ⟨_, h2, rfl, rfl, ?_⟩
  rw [h4]
  simp

/-- C7 amended, at the method name /foo.Bar/Baz. -/
theorem C7_unknown_method_fixed_message_witness :
    ∃ e, (director connectedDirector { heap := sampleHeap, dial := dialOk, reader := sampleReader } sampleCtx
        "/foo.Bar/Baz").err = some e ∧
      e.code = Codes.Unimplemented ∧ e.message = "Unknown method" ∧
      Event.log connectedDirector.c.logger Level.info
        [("msg", "gRPC reverse proxy director caught unknown method"),
         ("methodName", "/foo.Bar/Baz")] ∈
        (director connectedDirector { heap := sampleHeap, dial := dialOk, reader := sampleReader } sampleCtx
          "/foo.Bar/Baz").events :=
  C7_unknown_method_fixed_message connectedDirector { heap := sampleHeap, dial := dialOk, reader := sampleReader }
    sampleCtx "/foo.Bar/Baz" 0 rfl (by decide)

/-! ## Claims on sequences of calls -/

/-- C4: on a newly made director, N sequential calls (N at least 2) that all carry
metadata and name the known route, the dial of the first one succeeding with
handle cn, issue exactly one dial over the whole sequence, issued by the first
call, and every one of the N calls returns cn with no error. -/
theorem C4_one_dial_shared_handle (r : MDReader) (write : String) (opts : List HandlerOption)
    (h : Heap) (calls : List Call) (cn : ClientConn)
    (hn : 2 ≤ calls.length)
    (hall : ∀ c ∈ calls, c.ctx.incoming ≠ none ∧ c.fullMethodName = traceRoute)
    (hfirst : calls.head?.map Call.dial = some { conn := some cn, err := none }) :
    dialCount (allEvents (runCalls r (NewHandler write opts) h calls)) = 1 ∧
    (runCalls r (NewHandler write opts) h calls).head?.map (fun o => dialCount o.events) = some 1 ∧
    (runCalls r (NewHandler write opts) h calls).length = calls.length ∧
    ∀ o ∈ runCalls r (NewHandler write opts) h calls, o.conn = some cn ∧ o.err = none := by
  cases calls with
  | nil => simp at hn
  | cons c cs =>
    obtain ⟨hmd, hm⟩ := hall c (List.mem_cons_self _ _)
    obtain ⟨md, hmd⟩ := Option.ne_none_iff_exists'.mp hmd
    have hd : c.dial = { conn := some cn, err := none } := by simpa using hfirst
    have hstep := director_dial (NewHandler write opts) { heap := h, dial := c.dial, reader := r } c.ctx md
      hmd rfl
    rw [← hm] at hstep
    obtain ⟨h1, h2, h3, h4⟩ := hstep
    have hdc : c.dial.conn = some cn := by rw [hd]
    have hde : c.dial.err = none := by rw [hd]
    simp only [hdc] at h1 h3
    simp only [hde] at h2
    have hrest := runCalls_of_connected r
      (director (NewHandler write opts) { heap := h, dial := c.dial, reader := r } c.ctx c.fullMethodName).next
      (director (NewHandler write opts) { heap := h, dial := c.dial, reader := r } c.ctx c.fullMethodName).heap
      cs cn (by rw [h3]) (fun c' hc' => hall c' (List.mem_cons_of_mem _ hc'))
    refine ⟨?_, ?_, runCalls_length _ _ _ _, ?_⟩
    · have := hrest.1
      simp only [allEvents, dialCount, List.map_cons, List.flatten_cons, List.countP_append,
        runCalls] at this h4 ⊢
      rw [this, h4]
    · simp only [runCalls, List.head?_cons, Option.map_some']
      rw [h4]
    · intro o ho
      simp only [runCalls] at ho
      rcases List.mem_cons.mp ho with rfl | ho
      · exact ⟨h1, h2⟩
      · exact hrest.2 o ho

/-- C4 on three calls whose later dial answers differ from the first. -/
theorem C4_one_dial_shared_handle_witness :
    dialCount (allEvents (runCalls sampleReader (NewHandler "localhost:4317" []) sampleHeap
      [routeCall dialOk, routeCall { conn := some 9, err := none }, routeCall dialDown])) = 1 ∧
    (runCalls sampleReader (NewHandler "localhost:4317" []) sampleHeap
      [routeCall dialOk, routeCall { conn := some 9, err := none }, routeCall dialDown]).head?.map
        (fun o => dialCount o.events) = some 1 ∧
    (runCalls sampleReader (NewHandler "localhost:4317" []) sampleHeap
      [routeCall dialOk, routeCall { conn := some 9, err := none },
        routeCall dialDown]).length = 3 ∧
    ∀ o ∈ runCalls sampleReader (NewHandler "localhost:4317" []) sampleHeap
      [routeCall dialOk, routeCall { conn := some 9, err := none }, routeCall dialDown],
      o.conn = some 5 ∧ o.err = none :=
  C4_one_dial_shared_handle sampleReader "localhost:4317" [] sampleHeap
    [routeCall dialOk, routeCall { conn := some 9, err := none }, routeCall dialDown] 5
    (by decide) (by decide) rfl

/-- C5: a call with metadata for the known route, made on an empty slot, whose
dial fails with error e returns e with a nil handle and leaves the slot empty;
the next call with metadata for the known route (after any calls that carry no
metadata or name another method) dials again, and when that dial succeeds with
handle cn it returns cn and no error. -/
theorem C5_failed_dial_is_retried (d : Director) (env : Env) (ctx : Context) (md : Nat)
    (e : GoError)
    (hmd : ctx.incoming = some md) (hc : d.conn = none)
    (hfail : env.dial = { conn := none, err := some e }) :
    (director d env ctx traceRoute).conn = none ∧
    (director d env ctx traceRoute).err = some e ∧
    (director d env ctx traceRoute).next.conn = none ∧
    dialCount (director d env ctx traceRoute).events = 1 ∧
    ∀ (r : MDReader) (between : List Call) (env2 : Env) (ctx2 : Context),
      (∀ c ∈ between, c.ctx.incoming = none ∨ c.fullMethodName ≠ traceRoute) →
      ctx2.incoming ≠ none →
      dialCount (director
        (stateAfter r (director d env ctx traceRoute).next (director d env ctx traceRoute).heap
          between).1 env2 ctx2 traceRoute).events = 1 ∧
      ∀ cn : ClientConn, env2.dial = { conn := some cn, err := none } →
        (director
          (stateAfter r (director d env ctx traceRoute).next (director d env ctx traceRoute).heap
            between).1 env2 ctx2 traceRoute).conn = some cn ∧
        (director
          (stateAfter r (director d env ctx traceRoute).next (director d env ctx traceRoute).heap
            between).1 env2 ctx2 traceRoute).err = none := by
  obtain ⟨h1, h2, h3, h4⟩ := director_dial d env ctx md hmd hc
  rw [hfail] at h1 h2 h3
  refine ⟨h1, h2, by rw [h3], h4, ?_⟩
  intro r between env2 ctx2 hun hmd2
  obtain ⟨md2, hmd2⟩ := Option.ne_none_iff_exists'.mp hmd2
  rw [stateAfter_of_unmatched r _ _ between hun]
  obtain ⟨g1, g2, -, g4⟩ := director_dial (director d env ctx traceRoute).next env2 ctx2 md2
    hmd2 (by rw [h3])
  refine ⟨g4, ?_⟩
  intro cn hcn
  rw [g1, g2, hcn]
  exact ⟨rfl, rfl⟩

/-- C5 on a newly made director whose first dial is refused. -/
theorem C5_failed_dial_is_retried_witness :
    (director (NewHandler "localhost:4317" []) { heap := sampleHeap, dial := dialDown, reader := sampleReader }
      sampleCtx traceRoute).conn = none ∧
    (director (NewHandler "localhost:4317" []) { heap := sampleHeap, dial := dialDown, reader := sampleReader }
      sampleCtx traceRoute).err =
        some (GoError.status Codes.Unavailable "connection refused") ∧
    (director (NewHandler "localhost:4317" []) { heap := sampleHeap, dial := dialDown, reader := sampleReader }
      sampleCtx traceRoute).next.conn = none ∧
    dialCount (director (NewHandler "localhost:4317" []) { heap := sampleHeap, dial := dialDown, reader := sampleReader }
      sampleCtx traceRoute).events = 1 ∧
    dialCount (director
      (stateAfter sampleReader
        (director (NewHandler "localhost:4317" []) { heap := sampleHeap, dial := dialDown, reader := sampleReader }
          sampleCtx traceRoute).next
        (director (NewHandler "localhost:4317" []) { heap := sampleHeap, dial := dialDown, reader := sampleReader }
          sampleCtx traceRoute).heap
        [strayCall, bareCall]).1
      { heap := sampleHeap, dial := dialOk, reader := sampleReader } sampleCtx traceRoute).events = 1 ∧
    (director
      (stateAfter sampleReader
        (director (NewHandler "localhost:4317" []) { heap := sampleHeap, dial := dialDown, reader := sampleReader }
          sampleCtx traceRoute).next
        (director (NewHandler "localhost:4317" []) { heap := sampleHeap, dial := dialDown, reader := sampleReader }
          sampleCtx traceRoute).heap
        [strayCall, bareCall]).1
      { heap := sampleHeap, dial := dialOk, reader := sampleReader } sampleCtx traceRoute).conn = some 5 :=
  have key := C5_failed_dial_is_retried (NewHandler "localhost:4317" [])
    { heap := sampleHeap, dial := dialDown, reader := sampleReader } sampleCtx 0
    (GoError.status Codes.Unavailable "connection refused") rfl rfl rfl
  have nxt := key.2.2.2.2 sampleReader [strayCall, bareCall] { heap := sampleHeap, dial := dialOk, reader := sampleReader } sampleCtx
    (by decide) (by decide)
  ⟨key.1, key.2.1, key.2.2.1, key.2.2.2.1, nxt.1, (nxt.2 5 rfl).1⟩

/-- C6: once the slot holds a handle cn (after any sequence of calls, failed dials
included), it holds cn after every further sequence of calls, whatever their
metadata, method names and dial answers: the handle is never replaced and never
reset to nil. -/
theorem C6_slot_is_stable (r : MDReader) (d : Director) (h : Heap) (before later : List Call)
    (cn : ClientConn) (hslot : (stateAfter r d h before).1.conn = some cn) :
    (stateAfter r d h (before ++ later)).1.conn = some cn := by
  rw [stateAfter_append, stateAfter_of_connected r _ _ later cn hslot]
  exact hslot

/-- C6 after a refused dial and a successful one, followed by calls of every kind. -/
theorem C6_slot_is_stable_witness :
    (stateAfter sampleReader (NewHandler "localhost:4317" []) sampleHeap
      ([routeCall dialDown, routeCall dialOk] ++
        [strayCall, routeCall { conn := some 9, err := none }, bareCall,
          routeCall dialDown])).1.conn = some 5 :=
  C6_slot_is_stable sampleReader (NewHandler "localhost:4317" []) sampleHeap
    [routeCall dialDown, routeCall dialOk]
    [strayCall, routeCall { conn := some 9, err := none }, bareCall, routeCall dialDown]
    5 (by decide)

/-! ## Claim on the metadata of the returned context -/

/-- Trace of the store model on the sample call: after the director returns, the
outgoing metadata sits at address 2; writing into a value of it, appending to it,
setting a new key and deleting one change what address 2 reads and leave what
the inbound address 0 reads. -/
theorem sample_modification_trace :
    (director (NewHandler "localhost:4317" [])
      { heap := sampleHeap, dial := dialOk, reader := sampleReader }
      sampleCtx traceRoute).ctx.outgoing = some 2 ∧
    (((director (NewHandler "localhost:4317" [])
      { heap := sampleHeap, dial := dialOk, reader := sampleReader }
      sampleCtx traceRoute).heap.applyOps 2
        [MDOp.store "authority" 0 "elsewhere", MDOp.append "authority" ["more"],
          MDOp.set "x-scope" ["a"], MDOp.set "tmp" [], MDOp.delete "tmp"]).readMD 2
      = some [("authority", ["elsewhere", "more"]), ("x-scope", ["a"])]) ∧
    (((director (NewHandler "localhost:4317" [])
      { heap := sampleHeap, dial := dialOk, reader := sampleReader }
      sampleCtx traceRoute).heap.applyOps 2
        [MDOp.store "authority" 0 "elsewhere", MDOp.append "authority" ["more"],
          MDOp.set "x-scope" ["a"], MDOp.set "tmp" [], MDOp.delete "tmp"]).readMD 0
      = some [("authority", ["localhost"])]) := by
  decide

/-- C8, as stated, fails: with the metadata package of grpc 1.40 and later (keys
lower-cased by `metadata.FromIncomingContext`, with or without copying the
values), a call whose metadata set is Authority = localhost gets outgoing
metadata authority = localhost, whose key is not the key of the inbound set. -/
theorem C8_counterexample :
    sampleCtx.incoming = some 0 ∧
    mixedCaseHeap.readMD 0 = some [("Authority", ["localhost"])] ∧
    (∃ out, (director (NewHandler "localhost:4317" [])
        { heap := mixedCaseHeap, dial := dialOk, reader := MDReader.lowered asciiToLower true }
        sampleCtx traceRoute).ctx.outgoing = some out ∧
      (director (NewHandler "localhost:4317" [])
        { heap := mixedCaseHeap, dial := dialOk, reader := MDReader.lowered asciiToLower true }
        sampleCtx traceRoute).heap.readMD out = some [("authority", ["localhost"])] ∧
      (director (NewHandler "localhost:4317" [])
        { heap := mixedCaseHeap, dial := dialOk, reader := MDReader.lowered asciiToLower true }
        sampleCtx traceRoute).heap.readMD out ≠ some [("Authority", ["localhost"])]) ∧
    (∃ out, (director (NewHandler "localhost:4317" [])
        { heap := mixedCaseHeap, dial := dialOk, reader := MDReader.lowered asciiToLower false }
        sampleCtx "/foo.Bar/Baz").ctx.outgoing = some out ∧
      (director (NewHandler "localhost:4317" [])
        { heap := mixedCaseHeap, dial := dialOk, reader := MDReader.lowered asciiToLower false }
        sampleCtx "/foo.Bar/Baz").heap.readMD out = some [("authority", ["localhost"])] ∧
      (director (NewHandler "localhost:4317" [])
        { heap := mixedCaseHeap, dial := dialOk, reader := MDReader.lowered asciiToLower false }
        sampleCtx "/foo.Bar/Baz").heap.readMD out ≠ some [("Authority", ["localhost"])]) :=
  ⟨rfl, by decide, ⟨2, by decide, by decide, by decide⟩, ⟨2, by decide, by decide, by decide⟩⟩

/-- C8, amended: for every call that carries a metadata set md (any method name,
any slot, any dial answer, any version of the metadata package), the returned
context still has the inbound map attached as incoming metadata and that map
still reads md; its outgoing metadata is another map object than the inbound
one, which reads exactly md (same keys, same value lists, same order) whenever
the keys of md, distinct as the keys of a map are, are handed back unchanged by
`metadata.FromIncomingContext` (every key is its own lower-case form); and no
sequence of modifications made afterwards through the outgoing map changes what
the inbound map reads. -/
theorem C8_outgoing_copy_isolated_keys_kept (d : Director) (env : Env) (ctx : Context)
    (fullMethodName : String) (a : Nat) (md : List (String × List String))
    (hmd : ctx.incoming = some a) (hread : env.heap.readMD a = some md) :
    (director d env ctx fullMethodName).ctx.incoming = some a ∧
    (director d env ctx fullMethodName).heap.readMD a = some md ∧
    ∃ out, (director d env ctx fullMethodName).ctx.outgoing = some out ∧ out ≠ a ∧
      (((∀ kv ∈ md, env.reader.keeps kv.1) ∧ (md.map Prod.fst).Nodup) →
        (director d env ctx fullMethodName).heap.readMD out = some md) ∧
      ∀ ops : List MDOp,
        ((director d env ctx fullMethodName).heap.applyOps out ops).readMD a = some md := by
  obtain ⟨hctx, hheap⟩ := director_ctx_of_metadata d env ctx fullMethodName a hmd
  have hg := env.reader.read_grown env.heap a
  have hsep := Separate.of_grown hg
    (Separate.of_Copy (env.reader.read env.heap a).1 (env.reader.read env.heap a).2)
  have hlt := readMD_lt a md hread
  rw [hctx, hheap]
  refine ⟨hmd, hsep.readMD_old a md hread, _, rfl, ?_, ?_, ?_⟩
  · have := hg.maps_le
    simp only [Heap.Copy]
    omega
  · rintro ⟨hkeep, hnd⟩
    exact Copy_readMD_new _ _ md (env.reader.read_readMD env.heap a md hread hkeep hnd)
  · intro ops
    exact (hsep.applyOps ops).readMD_old a md hread

/-- C8 amended, on the sample call, whose metadata set is authority = localhost,
with the metadata package that lower-cases keys and copies values. -/
theorem C8_outgoing_copy_isolated_keys_kept_witness :
    (director (NewHandler "localhost:4317" [])
      { heap := sampleHeap, dial := dialDown, reader := sampleReader }
      sampleCtx traceRoute).ctx.incoming = some 0 ∧
    (director (NewHandler "localhost:4317" [])
      { heap := sampleHeap, dial := dialDown, reader := sampleReader }
      sampleCtx traceRoute).heap.readMD 0 = some [("authority", ["localhost"])] ∧
    ∃ out, (director (NewHandler "localhost:4317" [])
        { heap := sampleHeap, dial := dialDown, reader := sampleReader }
        sampleCtx traceRoute).ctx.outgoing = some out ∧
      out ≠ 0 ∧
      (director (NewHandler "localhost:4317" [])
        { heap := sampleHeap, dial := dialDown, reader := sampleReader }
        sampleCtx traceRoute).heap.readMD out = some [("authority", ["localhost"])] ∧
      ∀ ops : List MDOp,
        ((director (NewHandler "localhost:4317" [])
          { heap := sampleHeap, dial := dialDown, reader := sampleReader }
          sampleCtx traceRoute).heap.applyOps out ops).readMD 0 =
            some [("authority", ["localhost"])] :=
  have key := C8_outgoing_copy_isolated_keys_kept (NewHandler "localhost:4317" [])
    { heap := sampleHeap, dial := dialDown, reader := sampleReader } sampleCtx traceRoute 0
    [("authority", ["localhost"])] rfl rfl
  ⟨key.1, key.2.1, key.2.2.choose, key.2.2.choose_spec.1, key.2.2.choose_spec.2.1,
    key.2.2.choose_spec.2.2.1 ⟨by decide, by decide⟩, key.2.2.choose_spec.2.2.2⟩

end TracesV1
